import Mathlib

/-!
Verification of the pez bytecode-equivalence checker (tools/compare).

The Python sources under tools/compare are embedded shallowly:
pure functions become Lean functions, the stateful loops become explicit
recursion, Python ints become Nat/Int, and fallible lookups become Option.
External library calls that are not part of the repository (hashlib.sha1,
json.dumps, Python repr, difflib.SequenceMatcher, the xdis disassembler)
are modelled as parameters or as definitions marked "Modelled from the
spec", and no theorem below depends on their concrete behaviour except
where the specification pins it down.
-/

namespace Pez

/-! ## Opcode sets (analyze_xdis.py, top of file) -/

def IGNORE_OPS : List String :=
  ["CACHE", "EXTENDED_ARG", "NOP", "RESUME", "COPY_FREE_VARS", "PUSH_NULL"]

def CONST_OPS : List String :=
  ["LOAD_CONST", "LOAD_SMALL_INT", "LOAD_BIG_INT"]

def NAME_OPS : List String :=
  ["LOAD_NAME", "STORE_NAME", "LOAD_GLOBAL", "STORE_GLOBAL", "LOAD_FAST",
   "STORE_FAST", "LOAD_FAST_CHECK", "LOAD_FAST_BORROW", "STORE_FAST_MAYBE_NULL",
   "LOAD_DEREF", "STORE_DEREF", "LOAD_CLASSDEREF"]

def CALL_OPS : List String :=
  ["CALL", "CALL_FUNCTION", "CALL_FUNCTION_KW", "CALL_FUNCTION_EX", "CALL_METHOD"]

def RETURN_OPS : List String :=
  ["RETURN_VALUE", "RETURN_CONST"]

def RAISE_OPS : List String :=
  ["RAISE_VARARGS", "RERAISE"]

/-! ## Operand values

Python operand values (`argval`) are polymorphic.  Following the spec's
design note they are modelled as a tagged sum.  For str/bytes/containers
the constructor carries the Python `repr` of the value (repr is stdlib,
not repository code); the analyzer only ever hashes those reprs. -/

inductive PyVal where
  | pynone
  | pybool (b : Bool)
  | pyint (n : Int)
  | pyfloat (r : String)
  | pycomplex (r : String)
  | pystr (s : String)
  | pybytes (r : String)
  | pytuple (r : String)
  | pylist (r : String)
  | pyset (r : String)
  | pydict (r : String)
  | pycode
  | pyother (typeName : String)
deriving DecidableEq, Repr

/-- Python `isinstance(v, int)` (True for bool as well, since bool is a
subclass of int). -/
def PyVal.asInt : PyVal → Option Int
  | .pyint n => some n
  | .pybool b => some (if b then 1 else 0)
  | _ => none

/-- An xdis instruction as consumed by the analyzer:
`(offset, opname, arg, argval, argrepr)`. -/
structure Instr where
  offset : Nat
  opname : String
  arg : Nat
  argval : PyVal
  argrepr : String
deriving DecidableEq, Repr

/-! ## Token helpers (analyze_xdis.py) -/

/-- analyze_xdis.short_hash: first 12 hex digits of a SHA-1; the hash
function itself (hashlib, stdlib) is a parameter. -/
def short_hash (sha1 : String → String) (text : String) : String :=
  String.mk ((sha1 text).toList.take 12)

/-- Modelled from the spec: Python `repr` of a str value (stdlib). Only its
hash is ever used, so the exact escaping is irrelevant to every theorem. -/
def pyStrRepr (s : String) : String :=
  "'" ++ s ++ "'"

/-- analyze_xdis.const_token. -/
def const_token (sha1 : String → String) : PyVal → String
  | .pynone => "const:none"
  | .pycode => "const:code"
  | .pybool b => "const:bool:" ++ (if b then "True" else "False")
  | .pyint n => "const:int:" ++ toString n
  | .pyfloat r => "const:float:" ++ r
  | .pycomplex r => "const:complex:" ++ r
  | .pystr s => "const:str:" ++ short_hash sha1 (pyStrRepr s)
  | .pybytes r => "const:bytes:" ++ short_hash sha1 r
  | .pytuple r => "const:tuple:" ++ short_hash sha1 r
  | .pylist r => "const:list:" ++ short_hash sha1 r
  | .pyset r => "const:set:" ++ short_hash sha1 r
  | .pydict r => "const:dict:" ++ short_hash sha1 r
  | .pyother t => "const:" ++ t

/-- Python `s.startswith(pat)` (structural, over the character list). -/
def strStarts (s pat : String) : Bool :=
  pat.toList.isPrefixOf s.toList

/-- Python `s.endswith(pat)` (structural, over the character list). -/
def strEnds (s pat : String) : Bool :=
  pat.toList.isSuffixOf s.toList

/-- Structural scan for an infix pattern. -/
def charListInfix (pat : List Char) : List Char → Bool
  | [] => pat.isEmpty
  | c :: rest => pat.isPrefixOf (c :: rest) || charListInfix pat rest

/-- Substring containment, Python's `pat in s` (structural). -/
def strContains (s pat : String) : Bool :=
  charListInfix pat.toList s.toList

/-- Stable insertion into a le-sorted list. -/
def insertLe {α : Type} (le : α → α → Bool) (x : α) : List α → List α
  | [] => [x]
  | y :: ys => if le x y then x :: y :: ys else y :: insertLe le x ys

/-- Python `sorted` (and stable `list.sort`), as a stable insertion sort. -/
def sortLe {α : Type} (le : α → α → Bool) (l : List α) : List α :=
  l.foldr (insertLe le) []

/-- analyze_xdis.name_token. -/
def name_token (opname : String) (name : String) : String :=
  let scope :=
    if strContains opname "GLOBAL" then "global"
    else if strContains opname "FAST" then "local"
    else if strContains opname "DEREF" then "free"
    else "name"
  scope ++ ":" ++ name

/-- Python `argval or "<unknown>"` for name operands. -/
def nameOrUnknown : PyVal → String
  | .pystr s => if s = "" then "<unknown>" else s
  | _ => "<unknown>"

/-- analyze_xdis.arity_bin. -/
def arity_bin (n : Nat) : String :=
  if n = 0 then "0"
  else if n = 1 then "1"
  else if n ≤ 3 then "2-3"
  else "4+"

/-- analyze_xdis.is_jump. -/
def is_jump (opname : String) : Bool :=
  strStarts opname "JUMP" || strStarts opname "POP_JUMP" ||
    strStarts opname "JUMP_IF" || opname = "FOR_ITER"

/-- analyze_xdis.is_cond_jump. -/
def is_cond_jump (opname : String) : Bool :=
  if opname = "FOR_ITER" then true
  else if strStarts opname "POP_JUMP" then true
  else if strStarts opname "JUMP_IF" then true
  else if opname = "JUMP_IF_NOT_EXC_MATCH" then true
  else false

/-- analyze_xdis.is_uncond_jump. -/
def is_uncond_jump (opname : String) : Bool :=
  if strStarts opname "JUMP" && !(strContains opname "IF") then true
  else opname ∈ ["JUMP_ABSOLUTE", "JUMP_FORWARD", "JUMP_BACKWARD",
                 "JUMP_BACKWARD_NO_INTERRUPT"]

/-- analyze_xdis.op_class. -/
def op_class (opname : String) : String :=
  if opname ∈ CONST_OPS then "const"
  else if opname ∈ NAME_OPS then "name"
  else if opname ∈ CALL_OPS then "call"
  else if opname ∈ RETURN_OPS then "return"
  else if opname ∈ RAISE_OPS then "raise"
  else if strStarts opname "BINARY_" || opname = "BINARY_OP" ||
          strStarts opname "INPLACE_" then "binop"
  else if strStarts opname "UNARY_" then "unary"
  else if opname ∈ ["COMPARE_OP", "IS_OP", "CONTAINS_OP"] then "compare"
  else if is_jump opname then "branch"
  else if strStarts opname "LOAD_" then "load"
  else if strStarts opname "STORE_" then "store"
  else if strStarts opname "BUILD_" ||
          opname ∈ ["MAKE_FUNCTION", "MAKE_CELL", "MAKE_CLOSURE"] then "build"
  else if opname ∈ ["GET_ITER", "GET_AITER", "GET_ANEXT", "YIELD_FROM",
                    "YIELD_VALUE"] then "iter"
  else if opname ∈ ["COPY", "DUP_TOP", "ROT_TWO", "ROT_THREE", "ROT_FOUR",
                    "SWAP"] then "stack"
  else "other"

/-- analyze_xdis.norm_arg. -/
def norm_arg (sha1 : String → String) (opname : String) (argval : PyVal)
    (argrepr : String) (arg : Nat) : String :=
  if opname ∈ CONST_OPS then const_token sha1 argval
  else if opname ∈ NAME_OPS then name_token opname (nameOrUnknown argval)
  else if opname ∈ CALL_OPS then "call:" ++ arity_bin arg
  else if opname ∈ ["COMPARE_OP", "IS_OP", "CONTAINS_OP"] then "cmp:" ++ argrepr
  else if is_jump opname then "jump"
  else if opname = "BINARY_OP" then "bin:" ++ argrepr
  else ""

/-- analyze_xdis.seq_token. -/
def seq_token (opname : String) (arg_token : String) : String :=
  let cls := op_class opname
  if arg_token ≠ "" ∧ cls ∈ ["const", "name", "call", "compare", "branch", "binop"]
  then cls ++ ":" ++ arg_token
  else cls

/-! ## Stack deltas (analyze_xdis.stack_delta; claim C1)

The xdis opcode table (external) is modelled as a partial map from opname
to the table's `(pop, push)` pair, combining `opc.opmap`, `opc.oppop` and
`opc.oppush`. -/

def Opc : Type := String → Option (Int × Int)

/-- analyze_xdis.stack_delta. -/
def stack_delta (opc : Opc) (opname : String) (arg : Nat) : Int :=
  match opc opname with
  | none => 0
  | some (pop, push) =>
    if 0 ≤ pop ∧ 0 ≤ push then push - pop
    else if opname ∈ CALL_OPS then
      let extra : Int :=
        if opname = "CALL_FUNCTION_KW" then 1
        else if opname = "CALL_FUNCTION_EX" then 1 + (if arg &&& 1 = 1 then 1 else 0)
        else if opname = "CALL" then 1
        else 0
      1 - ((arg : Int) + extra)
    else if opname = "BUILD_LIST" ∨ opname = "BUILD_TUPLE" ∨ opname = "BUILD_SET" then
      1 - (arg : Int)
    else if opname = "BUILD_MAP" then 1 - ((arg : Int) * 2)
    else if opname = "BUILD_SLICE" then 1 - (arg : Int)
    else if opname = "UNPACK_SEQUENCE" then (arg : Int) - 1
    else if opname = "UNPACK_EX" then
      let before : Nat := arg &&& 0xFF
      let after : Nat := (arg >>> 8) &&& 0xFF
      ((before : Int) + (after : Int) + 1) - 1
    else if opname = "MAKE_FUNCTION" then
      let pops : Int := 2 + (if arg &&& 0x01 ≠ 0 then 1 else 0)
        + (if arg &&& 0x02 ≠ 0 then 1 else 0)
        + (if arg &&& 0x04 ≠ 0 then 1 else 0)
        + (if arg &&& 0x08 ≠ 0 then 1 else 0)
      1 - pops
    else 0

/-- A representative opcode table in which every CALL-family opcode has a
variable (negative) pop count, as in the real xdis tables for variadic
opcodes. -/
def variadicCallTable : Opc := fun opname =>
  if opname ∈ CALL_OPS then some (-1, 1) else none

/-- C1 counterexample: the spec's closed form for CALL_FUNCTION is
`1 − (arg + 1)`, but `stack_delta` computes `1 − arg`; at `arg = 2` the
code yields `-1` while the claimed closed form yields `-2`.  (The same
off-by-one holds for every CALL-family opcode.) -/
theorem c1_call_delta_counterexample :
    stack_delta variadicCallTable "CALL_FUNCTION" 2 = -1 ∧
      (1 - ((2 : Int) + 1)) = -2 ∧
      stack_delta variadicCallTable "CALL_FUNCTION" 2 ≠ 1 - ((2 : Int) + 1) := by
  refine ⟨by decide, by decide, by decide⟩

/-- C1 amended: when the opcode table reports a negative (variable) pop or
push for a CALL-family opcode, `stack_delta` uses the closed forms
CALL_FUNCTION, CALL_METHOD ↦ `1 − arg`; CALL_FUNCTION_KW, CALL ↦
`1 − (arg + 1)`; CALL_FUNCTION_EX ↦ `1 − (arg + 1 + (arg & 1 ? 1 : 0))`;
while a table entry with non-negative pop and push takes priority and
yields `push − pop` even for CALL-family opcodes. -/
theorem c1_call_delta_amended (opc : Opc) (arg : Nat) (pop push : Int) :
    ((opc "CALL_FUNCTION" = some (pop, push) → pop < 0 ∨ push < 0 →
        stack_delta opc "CALL_FUNCTION" arg = 1 - (arg : Int)) ∧
     (opc "CALL_METHOD" = some (pop, push) → pop < 0 ∨ push < 0 →
        stack_delta opc "CALL_METHOD" arg = 1 - (arg : Int)) ∧
     (opc "CALL_FUNCTION_KW" = some (pop, push) → pop < 0 ∨ push < 0 →
        stack_delta opc "CALL_FUNCTION_KW" arg = 1 - ((arg : Int) + 1)) ∧
     (opc "CALL" = some (pop, push) → pop < 0 ∨ push < 0 →
        stack_delta opc "CALL" arg = 1 - ((arg : Int) + 1)) ∧
     (opc "CALL_FUNCTION_EX" = some (pop, push) → pop < 0 ∨ push < 0 →
        stack_delta opc "CALL_FUNCTION_EX" arg =
          1 - ((arg : Int) + 1 + (if arg &&& 1 = 1 then 1 else 0))) ∧
     (∀ opname, opname ∈ CALL_OPS → opc opname = some (pop, push) →
        0 ≤ pop → 0 ≤ push → stack_delta opc opname arg = push - pop)) := by
  have hnotpos : ∀ p q : Int, p < 0 ∨ q < 0 → ¬ (0 ≤ p ∧ 0 ≤ q) := by
    rintro p q (h | h) ⟨h0, h1⟩ <;> omega
  refine ⟨?_, ?_, ?_, ?_, ?_, ?_⟩
  · intro h hneg
    simp only [stack_delta, h, if_neg (hnotpos _ _ hneg)]
    rw [if_pos (show ("CALL_FUNCTION" : String) ∈ CALL_OPS by decide),
      if_neg (show ¬ (("CALL_FUNCTION" : String) = "CALL_FUNCTION_KW") by decide),
      if_neg (show ¬ (("CALL_FUNCTION" : String) = "CALL_FUNCTION_EX") by decide),
      if_neg (show ¬ (("CALL_FUNCTION" : String) = "CALL") by decide)]
    ring
  · intro h hneg
    simp only [stack_delta, h, if_neg (hnotpos _ _ hneg)]
    rw [if_pos (show ("CALL_METHOD" : String) ∈ CALL_OPS by decide),
      if_neg (show ¬ (("CALL_METHOD" : String) = "CALL_FUNCTION_KW") by decide),
      if_neg (show ¬ (("CALL_METHOD" : String) = "CALL_FUNCTION_EX") by decide),
      if_neg (show ¬ (("CALL_METHOD" : String) = "CALL") by decide)]
    ring
  · intro h hneg
    simp only [stack_delta, h, if_neg (hnotpos _ _ hneg)]
    rw [if_pos (show ("CALL_FUNCTION_KW" : String) ∈ CALL_OPS by decide),
      if_pos (trivial : True)]
  · intro h hneg
    simp only [stack_delta, h, if_neg (hnotpos _ _ hneg)]
    rw [if_pos (show ("CALL" : String) ∈ CALL_OPS by decide),
      if_neg (show ¬ (("CALL" : String) = "CALL_FUNCTION_KW") by decide),
      if_neg (show ¬ (("CALL" : String) = "CALL_FUNCTION_EX") by decide),
      if_pos (trivial : True)]
  · intro h hneg
    simp only [stack_delta, h, if_neg (hnotpos _ _ hneg)]
    rw [if_pos (show ("CALL_FUNCTION_EX" : String) ∈ CALL_OPS by decide),
      if_neg (show ¬ (("CALL_FUNCTION_EX" : String) = "CALL_FUNCTION_KW") by decide),
      if_pos (trivial : True)]
    ring
  · intro opname _ h h0 h1
    simp only [stack_delta, h, if_pos (And.intro h0 h1)]

/-- Witness for the amended C1 theorem at a concrete table and argument. -/
theorem c1_call_delta_amended_witness :
    stack_delta variadicCallTable "CALL_FUNCTION_EX" 3 = 1 - ((3 : Int) + 1 + 1) := by
  have h := (c1_call_delta_amended variadicCallTable 3 (-1) 1).2.2.2.2.1
  have hx := h (by decide) (Or.inl (by decide))
  simpa using hx

/-! ## Normalization (analyze_xdis.normalize_instructions) -/

/-- analyze_xdis.normalize_instructions: drop ignored opcodes (the extra
PUSH_NULL test in the source is unreachable, PUSH_NULL being in the ignore
set already, and is kept here verbatim). -/
def normalize_instructions : List Instr → List Instr
  | [] => []
  | i :: rest =>
    if i.opname ∈ IGNORE_OPS then normalize_instructions rest
    else if i.opname = "PUSH_NULL" then normalize_instructions rest
    else i :: normalize_instructions rest

/-! ## CFG construction (analyze_xdis.build_cfg; claims C3, C7) -/

structure Block where
  id : Nat
  start : Nat
  instrs : List Instr
deriving DecidableEq, Repr

inductive EdgeKind where
  | cond
  | fallthrough
  | jump
deriving DecidableEq, Repr

structure Edge where
  src : Nat
  dst : Nat
  kind : EdgeKind
deriving DecidableEq, Repr

/-- The inner loop of block formation: skip instructions with offset below
`start`, stop at the first instruction at or beyond the next leader. -/
def blockInstrs (instrs : List Instr) (start : Nat) (stop : Option Nat) : List Instr :=
  match instrs with
  | [] => []
  | i :: rest =>
    if i.offset < start then blockInstrs rest start stop
    else
      match stop with
      | some e => if i.offset ≥ e then [] else i :: blockInstrs rest start stop
      | none => i :: blockInstrs rest start stop

/-- Leader offsets collected by build_cfg: branch targets that resolve to
an instruction offset, and the offset following any branch, return or raise. -/
def leaderContrib (instrs : List Instr) (offset_set : List Nat) : Nat → List Nat
  | idx =>
    match instrs.get? idx with
    | none => []
    | some ins =>
      if is_jump ins.opname then
        (match ins.argval.asInt with
         | some t => if (t ≥ 0 ∧ (t.toNat) ∈ offset_set) then [t.toNat] else []
         | none => []) ++
        (match instrs.get? (idx + 1) with
         | some next => [next.offset]
         | none => [])
      else if ins.opname ∈ RETURN_OPS ∨ ins.opname ∈ RAISE_OPS then
        match instrs.get? (idx + 1) with
        | some next => [next.offset]
        | none => []
      else []

/-- `sorted(set(...))` of the leader offsets. -/
def leadersOf (instrs : List Instr) : List Nat :=
  match instrs with
  | [] => []
  | first :: _ =>
    let offset_set := instrs.map (·.offset)
    let raw := first.offset ::
      (List.range instrs.length).flatMap (leaderContrib instrs offset_set)
    sortLe (fun a b => a ≤ b) raw.dedup

/-- Partition the instruction list at the leader offsets, skipping empty
blocks; the block id is the number of blocks formed so far. -/
def buildBlocksAux (instrs : List Instr) : List Nat → Nat → List Block
  | [], _ => []
  | start :: rest, n =>
    let bi := blockInstrs instrs start rest.head?
    if bi = [] then buildBlocksAux instrs rest n
    else ⟨n, start, bi⟩ :: buildBlocksAux instrs rest (n + 1)

/-- The `off_to_block` map: block start offset to block id. -/
def offToBlock (blocks : List Block) (target : Int) : Option Nat :=
  (blocks.find? (fun b => (b.start : Int) = target)).map (·.id)

/-- The edge to a branch target, when the target is an int that resolves
through off_to_block; the edge is omitted otherwise. -/
def resolvedTargetEdges (blocks : List Block) (b : Block) (last : Instr)
    (k : EdgeKind) : List Edge :=
  match last.argval.asInt with
  | some t =>
    match offToBlock blocks t with
    | some d => [⟨b.id, d, k⟩]
    | none => []
  | none => []

/-- The fallthrough edge to the next block in order, when one exists. -/
def fallthroughEdge (b : Block) (next? : Option Nat) : List Edge :=
  match next? with
  | some nb => [⟨b.id, nb, EdgeKind.fallthrough⟩]
  | none => []

/-- Outgoing edges of one block, from its last instruction's class.
`next?` is the id of the next block in order, when one exists. -/
def blockOutEdges (blocks : List Block) (b : Block) (next? : Option Nat) : List Edge :=
  match b.instrs.getLast? with
  | none => []
  | some last =>
    if is_cond_jump last.opname then
      resolvedTargetEdges blocks b last EdgeKind.cond ++ fallthroughEdge b next?
    else if is_uncond_jump last.opname then
      resolvedTargetEdges blocks b last EdgeKind.jump
    else if last.opname ∈ RETURN_OPS ∨ last.opname ∈ RAISE_OPS then []
    else fallthroughEdge b next?

/-- Walk the block list pairing each block with its successor's id. -/
def buildEdgesAux (blocks : List Block) : List Block → List Edge
  | [] => []
  | b :: rest => blockOutEdges blocks b (rest.head?.map (·.id)) ++ buildEdgesAux blocks rest

/-- analyze_xdis.build_cfg. -/
def build_cfg (instrs : List Instr) : List Block × List Edge :=
  match instrs with
  | [] => ([], [])
  | _ :: _ =>
    let blocks := buildBlocksAux instrs (leadersOf instrs) 0
    (blocks, buildEdgesAux blocks blocks)

/-! ## Reachability sweep (analyze_xdis.reachable_blocks) -/

/-- The adjacency map: successors of `b`, in edge order. -/
def adjOf (edges : List Edge) (b : Nat) : List Nat :=
  (edges.filter (fun e => e.src = b)).map (·.dst)

/-- The worklist loop of reachable_blocks.  Each iteration pops one stack
element, and every push comes from the adjacency list of a newly seen
block, so the total number of iterations is bounded by one plus the
number of edges; the structural fuel `edges.length + 2` is therefore
never exhausted and only discharges termination. -/
def dfsAux (es : List Edge) : Nat → List Nat → Finset Nat → Finset Nat
  | 0, _, seen => seen
  | _ + 1, [], seen => seen
  | fuel + 1, b :: rest, seen =>
    if b ∈ seen then dfsAux es fuel rest seen
    else dfsAux es fuel (rest ++ adjOf es b) (insert b seen)

/-- analyze_xdis.reachable_blocks: depth-first sweep from block 0. -/
def reachable_blocks (blocks : List Block) (edges : List Edge) : Finset Nat :=
  match blocks with
  | [] => ∅
  | b0 :: _ => dfsAux edges (edges.length + 2) [b0.id] ∅

/-! ## Pruned CFG (the head of analyze_xdis.analyze_code) -/

/-- The reachability pruning performed at the start of analyze_code:
blocks not reached from block 0 are dropped, and edges incident to a
dropped block are dropped with them. -/
def analyzeBlocks (instrs : List Instr) : List Block × List Edge :=
  let be := build_cfg instrs
  let reach := reachable_blocks be.1 be.2
  (be.1.filter (fun b => b.id ∈ reach),
   be.2.filter (fun e => e.src ∈ reach ∧ e.dst ∈ reach))

/-! ## Block invariants and signatures (analyze_xdis.block_invariants, sig_key) -/

/-- Python `Counter` update: increment in place, appending new keys. -/
def bump (m : List (String × Nat)) (k : String) : List (String × Nat) :=
  match m with
  | [] => [(k, 1)]
  | (k0, v) :: rest => if k0 = k then (k0, v + 1) :: rest else (k0, v) :: bump rest k

/-- Fold a token list into a Counter. -/
def countList (ks : List String) : List (String × Nat) :=
  ks.foldl bump []

structure BlockInv where
  op_seq : List String
  op_counts : List (String × Nat)
  consts : List (String × Nat)
  names : List (String × Nat)
  call_bins : List (String × Nat)
  stack_delta : Int
  stack_max : Int
  stack_min : Int
deriving DecidableEq, Repr

def emptyBlockInv : BlockInv := ⟨[], [], [], [], [], 0, 0, 0⟩

/-- The loop body of analyze_xdis.block_invariants (running depth is the
`stack_delta` field of the accumulator). -/
def blockInvAux (opc : Opc) (sha1 : String → String) : List Instr → BlockInv → BlockInv
  | [], acc => acc
  | ins :: rest, acc =>
    let arg_token := norm_arg sha1 ins.opname ins.argval ins.argrepr ins.arg
    let acc := { acc with
      op_seq := acc.op_seq ++ [seq_token ins.opname arg_token],
      op_counts := bump acc.op_counts (op_class ins.opname) }
    let acc := if ins.opname ∈ CONST_OPS then
        { acc with consts := bump acc.consts (const_token sha1 ins.argval) } else acc
    let acc := if ins.opname ∈ NAME_OPS then
        { acc with names := bump acc.names (name_token ins.opname (nameOrUnknown ins.argval)) }
      else acc
    let acc := if ins.opname ∈ CALL_OPS then
        { acc with call_bins := bump acc.call_bins (arity_bin ins.arg) } else acc
    let depth := acc.stack_delta + stack_delta opc ins.opname ins.arg
    let acc := { acc with
      stack_delta := depth,
      stack_max := if depth > acc.stack_max then depth else acc.stack_max,
      stack_min := if depth < acc.stack_min then depth else acc.stack_min }
    blockInvAux opc sha1 rest acc

/-- analyze_xdis.block_invariants. -/
def block_invariants (opc : Opc) (sha1 : String → String) (b : Block) : BlockInv :=
  blockInvAux opc sha1 b.instrs emptyBlockInv

/-- Counter items sorted by key, Python `sorted(counter.items())`
(keys are distinct, so sorting by key alone is the full sort). -/
def sortedItems (m : List (String × Nat)) : List (String × Nat) :=
  sortLe (fun a b => a.1 ≤ b.1) m

/-- Render sorted Counter items. -/
def itemsString (m : List (String × Nat)) : String :=
  String.intercalate "," ((sortedItems m).map (fun kv => kv.1 ++ "=" ++ toString kv.2))

/-- Modelled from the spec: `json.dumps(payload, sort_keys=True)` (json is
stdlib, not repository code) — a canonical sort-stable rendering of the
signature payload of analyze_xdis.sig_key. -/
def sigPayload (sha1 : String → String) (inv : BlockInv) : String :=
  "op_seq_hash=" ++ short_hash sha1 (String.intercalate " " inv.op_seq) ++
    ";stack_delta=" ++ toString inv.stack_delta ++
    ";stack_max=" ++ toString inv.stack_max ++
    ";consts=" ++ itemsString inv.consts ++
    ";names=" ++ itemsString inv.names ++
    ";call_bins=" ++ itemsString inv.call_bins

/-- analyze_xdis.sig_key. -/
def sig_key (sha1 : String → String) (inv : BlockInv) : String :=
  short_hash sha1 (sigPayload sha1 inv)

/-! ## Unit metadata (analyze_xdis.unit_meta) -/

structure CodeMeta where
  co_argcount : Nat
  co_posonlyargcount : Nat
  co_kwonlyargcount : Nat
  co_nlocals : Nat
  co_stacksize : Nat
  co_flags : Nat
  co_varnames : List String
  co_freevars : List String
  co_cellvars : List String
  co_exceptiontable : List Nat
deriving DecidableEq, Repr

def hexDigit (n : Nat) : String :=
  String.mk [("0123456789abcdef".toList.getD n '0')]

/-- Python bytes.hex of one byte. -/
def byteHex (b : Nat) : String :=
  hexDigit (b / 16 % 16) ++ hexDigit (b % 16)

def bytesHex (bs : List Nat) : String :=
  String.join (bs.map byteHex)

/-- analyze_xdis.unit_meta; values are rendered to strings, which preserves
the only operation ever applied to them (equality comparison in meta_diff). -/
def unit_meta (sha1 : String → String) (m : CodeMeta) : List (String × String) :=
  [("argcount", toString m.co_argcount),
   ("posonlyargcount", toString m.co_posonlyargcount),
   ("kwonlyargcount", toString m.co_kwonlyargcount),
   ("nlocals", toString m.co_nlocals),
   ("stacksize", toString m.co_stacksize),
   ("flags", toString m.co_flags),
   ("varnames_len", toString m.co_varnames.length),
   ("freevars", toString m.co_freevars),
   ("cellvars", toString m.co_cellvars),
   ("exception_table_len", toString m.co_exceptiontable.length),
   ("exception_table_hash",
     if m.co_exceptiontable = [] then "" else short_hash sha1 (bytesHex m.co_exceptiontable))]

/-! ## Unit analysis (analyze_xdis.analyze_code) -/

structure BlockSig where
  id : Nat
  start : Nat
  sig : String
  stack_delta : Int
  stack_max : Int
  stack_min : Int
  op_seq_hash : String
  consts : List (String × Nat)
  names : List (String × Nat)
  call_bins : List (String × Nat)
deriving DecidableEq, Repr

structure CfgSig where
  block_count : Nat
  edge_count : Nat
  loop_edges : Nat
deriving DecidableEq, Repr

structure UnitAnalysis where
  path : String
  meta : List (String × String)
  norm_ops : List String
  op_counts : List (String × Nat)
  block_sig_counts : List (String × Nat)
  edge_sig_counts : List (String × Nat)
  block_sigs : List BlockSig
  cfg_sig : CfgSig
deriving DecidableEq, Repr

def EdgeKind.str : EdgeKind → String
  | .cond => "cond"
  | .fallthrough => "fallthrough"
  | .jump => "jump"

def mkBlockSig (opc : Opc) (sha1 : String → String) (b : Block) : BlockSig :=
  let inv := block_invariants opc sha1 b
  { id := b.id, start := b.start, sig := sig_key sha1 inv,
    stack_delta := inv.stack_delta, stack_max := inv.stack_max,
    stack_min := inv.stack_min,
    op_seq_hash := short_hash sha1 (String.intercalate " " inv.op_seq),
    consts := inv.consts, names := inv.names, call_bins := inv.call_bins }

/-- The edge-signature Counter loop of analyze_code. -/
def edgeSigCounts (block_sigs : List BlockSig) : List Edge → List (String × Nat) →
    List (String × Nat)
  | [], acc => acc
  | e :: rest, acc =>
    let src_sig := (((block_sigs.find? (fun s => s.id = e.src)).map (·.sig)).getD "")
    let dst_sig := (((block_sigs.find? (fun s => s.id = e.dst)).map (·.sig)).getD "")
    let acc := if src_sig ≠ "" ∧ dst_sig ≠ "" then
        bump acc (src_sig ++ ":" ++ e.kind.str ++ ":" ++ dst_sig)
      else acc
    edgeSigCounts block_sigs rest acc

/-- Start offset of a block id, Python `starts.get(id, 0)`. -/
def startOf (blocks : List Block) (id : Nat) : Nat :=
  (((blocks.find? (fun b => b.id = id)).map (·.start)).getD 0)

/-- analyze_xdis.analyze_code, over the already-disassembled raw
instruction list of one code object (the xdis Bytecode walk being the
external disassembler). -/
def analyze_code (opc : Opc) (sha1 : String → String) (meta : CodeMeta)
    (instrs0 : List Instr) (path : String) : UnitAnalysis :=
  let instrs := normalize_instructions instrs0
  let ab := analyzeBlocks instrs
  let blocks := ab.1
  let edges := ab.2
  let block_sigs := blocks.map (mkBlockSig opc sha1)
  let block_sig_counts := countList (block_sigs.map (·.sig))
  let edge_sig_counts := edgeSigCounts block_sigs edges []
  let op_seq := instrs.map (fun ins =>
    seq_token ins.opname (norm_arg sha1 ins.opname ins.argval ins.argrepr ins.arg))
  let op_counts := countList (instrs.map (fun ins => op_class ins.opname))
  let loop_edges := (edges.filter (fun e => startOf blocks e.dst ≤ startOf blocks e.src)).length
  { path := path,
    meta := unit_meta sha1 meta,
    norm_ops := op_seq,
    op_counts := op_counts,
    block_sig_counts := block_sig_counts,
    edge_sig_counts := edge_sig_counts,
    block_sigs := block_sigs,
    cfg_sig := { block_count := blocks.length, edge_count := edges.length,
                 loop_edges := loop_edges } }

/-! ## Comparison metrics (compare.py) -/

/-- Length of a longest common subsequence. -/
def lcsLength : List String → List String → Nat
  | [], _ => 0
  | _ :: _, [] => 0
  | x :: xs, y :: ys =>
    if x = y then 1 + lcsLength xs ys
    else max (lcsLength (x :: xs) ys) (lcsLength xs (y :: ys))
termination_by a b => a.length + b.length
decreasing_by all_goals (simp only [List.length_cons]; omega)

/-- Modelled from the spec: difflib.SequenceMatcher.ratio (difflib is
stdlib, not repository code); §4.6 defines seq_ratio as the
longest-common-subsequence ratio, 1 iff the sequences are identical. -/
def sequenceMatcherRatio (a b : List String) : ℚ :=
  2 * (lcsLength a b : ℚ) / ((a.length : ℚ) + (b.length : ℚ))

/-- compare.seq_ratio. -/
def seq_ratio (a b : List String) : ℚ :=
  if a = [] ∧ b = [] then 1
  else if a = [] ∨ b = [] then 0
  else sequenceMatcherRatio a b

/-- Python `dict.get(k, 0)`. -/
def lookup0 (m : List (String × Nat)) (k : String) : Nat :=
  ((m.lookup k).getD 0)

/-- compare.count_jaccard (weighted Jaccard over count dicts). -/
def count_jaccard (a b : List (String × Nat)) : ℚ :=
  let keys := ((a.map Prod.fst) ++ (b.map Prod.fst)).dedup
  if keys = [] then 1
  else
    let inter := (keys.map (fun k => min (lookup0 a k) (lookup0 b k))).sum
    let union := (keys.map (fun k => max (lookup0 a k) (lookup0 b k))).sum
    if union = 0 then 1 else (inter : ℚ) / (union : ℚ)

/-- compare.multiset_jaccard. -/
def multiset_jaccard (a b : List (String × Nat)) : ℚ :=
  count_jaccard a b

/-- compare.semantic_score. -/
def semantic_score (block_j edge_j : ℚ) : ℚ :=
  0.4 * block_j + 0.6 * edge_j

/-- Python `dict.get(k)` on the meta map. -/
def lookupS (m : List (String × String)) (k : String) : Option String :=
  m.lookup k

/-- compare.meta_diff: sorted keys at which the two meta maps disagree. -/
def meta_diff (a b : List (String × String)) : List String :=
  (sortLe (fun x y => x ≤ y) (((a.map Prod.fst) ++ (b.map Prod.fst)).dedup)).filter
    (fun k => lookupS a k ≠ lookupS b k)

structure CounterDiff where
  missing : List (String × Int)
  extra : List (String × Int)
deriving DecidableEq, Repr

/-- compare.counter_diff (top-5 over/under-represented keys). -/
def counter_diff (a b : List (String × Nat)) (limit : Nat) : CounterDiff :=
  let missing := a.filterMap (fun kv =>
    let d : Int := (kv.2 : Int) - (lookup0 b kv.1 : Int)
    if d > 0 then some (kv.1, d) else none)
  let extra := b.filterMap (fun kv =>
    let d : Int := (kv.2 : Int) - (lookup0 a kv.1 : Int)
    if d > 0 then some (kv.1, d) else none)
  { missing := (sortLe (fun x y => y.2 ≤ x.2) missing).take limit,
    extra := (sortLe (fun x y => y.2 ≤ x.2) extra).take limit }

/-! ## Per-unit rows and the comparison loop (compare.main) -/

structure Thresholds where
  avg_ratio : ℚ
  min_unit_ratio : ℚ
  min_count_jaccard : ℚ
  min_block_jaccard : ℚ
  min_edge_jaccard : ℚ
  min_semantic_score : ℚ
deriving DecidableEq, Repr

/-- The argparse defaults of compare.py. -/
def defaultThresholds : Thresholds :=
  { avg_ratio := 0.97, min_unit_ratio := 0.90, min_count_jaccard := 0.95,
    min_block_jaccard := 0.95, min_edge_jaccard := 0.95, min_semantic_score := 0.95 }

structure Row where
  path : String
  len_orig : Nat
  len_comp : Nat
  seq_ratio : ℚ
  count_jaccard : ℚ
  block_jaccard : ℚ
  edge_jaccard : ℚ
  semantic_score : ℚ
  exact : Bool
  tier : String
  meta_mismatch : List String
  cfg_sig_orig : CfgSig
  cfg_sig_comp : CfgSig
  block_sig_diff : CounterDiff
  edge_sig_diff : CounterDiff
deriving DecidableEq, Repr

/-- One iteration body of the row loop in compare.main. -/
def makeRow (th : Thresholds) (u other : UnitAnalysis) : Row :=
  let ratio := seq_ratio u.norm_ops other.norm_ops
  let jac := count_jaccard u.op_counts other.op_counts
  let block_j := multiset_jaccard u.block_sig_counts other.block_sig_counts
  let edge_j := multiset_jaccard u.edge_sig_counts other.edge_sig_counts
  let semantic := semantic_score block_j edge_j
  let ex := u.norm_ops == other.norm_ops
  let meta_mismatch := meta_diff u.meta other.meta
  let tier :=
    if ex then "exact"
    else if meta_mismatch = [] ∧ block_j ≥ th.min_block_jaccard ∧
            edge_j ≥ th.min_edge_jaccard then "semantic_equiv"
    else "mismatch"
  { path := u.path, len_orig := u.norm_ops.length, len_comp := other.norm_ops.length,
    seq_ratio := ratio, count_jaccard := jac, block_jaccard := block_j,
    edge_jaccard := edge_j, semantic_score := semantic, exact := ex, tier := tier,
    meta_mismatch := meta_mismatch, cfg_sig_orig := u.cfg_sig,
    cfg_sig_comp := other.cfg_sig,
    block_sig_diff := counter_diff u.block_sig_counts other.block_sig_counts 5,
    edge_sig_diff := counter_diff u.edge_sig_counts other.edge_sig_counts 5 }

/-- The matching loop: the k-th occurrence of a path in `orig` is paired
with the k-th occurrence of that path in `comp` (comp_map.get(path) with
the comp_seen occurrence counter); unpaired units are reported missing. -/
def compareRows (th : Thresholds) (compUnits : List UnitAnalysis) :
    List UnitAnalysis → (String → Nat) → List Row × List String
  | [], _ => ([], [])
  | u :: rest, seen =>
    let idx := seen u.path
    let seen' := fun p => if p = u.path then idx + 1 else seen p
    let candidates := compUnits.filter (fun v => v.path = u.path)
    match candidates.get? idx with
    | none =>
      let r := compareRows th compUnits rest seen'
      (r.1, u.path :: r.2)
    | some other =>
      let r := compareRows th compUnits rest seen'
      (makeRow th u other :: r.1, r.2)

/-- Running average of a row metric (compare.main accumulates the total in
the row loop and divides at the end). -/
def avgOf (rows : List Row) (f : Row → ℚ) : ℚ :=
  if rows.length = 0 then 0 else (rows.map f).sum / (rows.length : ℚ)

/-- Running minimum of a row metric, starting from 1.0. -/
def minOf (rows : List Row) (f : Row → ℚ) : ℚ :=
  rows.foldl (fun m r => if f r < m then f r else m) 1

/-- The verdict chain at the end of compare.main. -/
def computeVerdict (th : Thresholds) (rows : List Row) (missing : List String) : String :=
  let total_count := rows.length
  let exact_units := (rows.filter (fun r => r.exact)).length
  if total_count = 0 then "mismatch"
  else if missing ≠ [] then "mismatch"
  else if exact_units = total_count then "exact"
  else if avgOf rows (fun r => r.seq_ratio) ≥ th.avg_ratio ∧
          minOf rows (fun r => r.seq_ratio) ≥ th.min_unit_ratio ∧
          avgOf rows (fun r => r.count_jaccard) ≥ th.min_count_jaccard ∧
          avgOf rows (fun r => r.block_jaccard) ≥ th.min_block_jaccard ∧
          avgOf rows (fun r => r.edge_jaccard) ≥ th.min_edge_jaccard ∧
          avgOf rows (fun r => r.semantic_score) ≥ th.min_semantic_score then "close"
  else "mismatch"

structure Summary where
  orig_version : List Nat
  compiled_version : List Nat
  version_mismatch : Bool
  units_compared : Nat
  units_missing : List String
  avg_seq_ratio : ℚ
  avg_count_jaccard : ℚ
  avg_block_jaccard : ℚ
  avg_edge_jaccard : ℚ
  avg_semantic_score : ℚ
  min_seq_ratio : ℚ
  min_count_jaccard : ℚ
  min_block_jaccard : ℚ
  min_edge_jaccard : ℚ
  min_semantic_score : ℚ
  exact_units : Nat
  verdict : String
  thresholds : Thresholds
deriving DecidableEq, Repr

structure Report where
  verdict : String
  summary : Summary
  rows : List Row
deriving DecidableEq, Repr

/-- The stub summary emitted by compare.main when loader versions differ. -/
def versionMismatchSummary (origVer compVer : List Nat) (th : Thresholds) : Summary :=
  { orig_version := origVer, compiled_version := compVer, version_mismatch := true,
    units_compared := 0, units_missing := [],
    avg_seq_ratio := 0, avg_count_jaccard := 0, avg_block_jaccard := 0,
    avg_edge_jaccard := 0, avg_semantic_score := 0,
    min_seq_ratio := 0, min_count_jaccard := 0, min_block_jaccard := 0,
    min_edge_jaccard := 0, min_semantic_score := 0,
    exact_units := 0, verdict := "mismatch", thresholds := th }

/-- The full summary of compare.main. -/
def mkSummary (origVer compVer : List Nat) (th : Thresholds) (rows : List Row)
    (missing : List String) (verdict : String) : Summary :=
  let n := rows.length
  { orig_version := origVer, compiled_version := compVer, version_mismatch := false,
    units_compared := n, units_missing := missing,
    avg_seq_ratio := avgOf rows (fun r => r.seq_ratio),
    avg_count_jaccard := avgOf rows (fun r => r.count_jaccard),
    avg_block_jaccard := avgOf rows (fun r => r.block_jaccard),
    avg_edge_jaccard := avgOf rows (fun r => r.edge_jaccard),
    avg_semantic_score := avgOf rows (fun r => r.semantic_score),
    min_seq_ratio := if n = 0 then 0 else minOf rows (fun r => r.seq_ratio),
    min_count_jaccard := if n = 0 then 0 else minOf rows (fun r => r.count_jaccard),
    min_block_jaccard := if n = 0 then 0 else minOf rows (fun r => r.block_jaccard),
    min_edge_jaccard := if n = 0 then 0 else minOf rows (fun r => r.edge_jaccard),
    min_semantic_score := if n = 0 then 0 else minOf rows (fun r => r.semantic_score),
    exact_units := (rows.filter (fun r => r.exact)).length,
    verdict := verdict, thresholds := th }

/-- compare.main after both artifacts were disassembled: the version gate,
the row loop and the summary. -/
def compare_main (origVer compVer : List Nat) (origUnits compUnits : List UnitAnalysis)
    (th : Thresholds) : Report :=
  if origVer ≠ compVer then
    { verdict := "mismatch", summary := versionMismatchSummary origVer compVer th,
      rows := [] }
  else
    let r := compareRows th compUnits origUnits (fun _ => 0)
    let verdict := computeVerdict th r.1 r.2
    { verdict := verdict, summary := mkSummary origVer compVer th r.1 r.2 verdict,
      rows := r.1 }

/-- The overall-verdict rule exactly as the spec words it (§4.6):
mismatch when zero units were compared or some unit is missing a
counterpart; else exact when every compared unit is exact; else close
iff all six threshold conditions hold; else mismatch. -/
def verdictSpec (th : Thresholds) (rows : List Row) (missing : List String) : String :=
  if rows.length = 0 ∨ missing ≠ [] then "mismatch"
  else if rows.all (fun r => r.exact) then "exact"
  else if avgOf rows (fun r => r.seq_ratio) ≥ th.avg_ratio ∧
          minOf rows (fun r => r.seq_ratio) ≥ th.min_unit_ratio ∧
          avgOf rows (fun r => r.count_jaccard) ≥ th.min_count_jaccard ∧
          avgOf rows (fun r => r.block_jaccard) ≥ th.min_block_jaccard ∧
          avgOf rows (fun r => r.edge_jaccard) ≥ th.min_edge_jaccard ∧
          avgOf rows (fun r => r.semantic_score) ≥ th.min_semantic_score then "close"
  else "mismatch"

/-! ## Helper lemmas for the comparator theorems -/

theorem filter_length_eq_iff_all {α : Type} (p : α → Bool) (l : List α) :
    ((l.filter p).length = l.length) ↔ (l.all p = true) := by
  induction l with
  | nil => simp
  | cons x xs ih =>
    by_cases hx : p x = true
    · simp [List.filter_cons, hx, ih]
    · have hle := List.length_filter_le p xs
      have hfc : List.filter p (x :: xs) = List.filter p xs := by
        simp [List.filter_cons, hx]
      rw [hfc, List.length_cons, List.all_cons]
      simp only [Bool.and_eq_true]
      constructor
      · intro hlen; omega
      · rintro ⟨h1, _⟩; exact absurd h1 hx

theorem computeVerdict_eq_verdictSpec (th : Thresholds) (rows : List Row)
    (missing : List String) :
    computeVerdict th rows missing = verdictSpec th rows missing := by
  unfold computeVerdict verdictSpec
  by_cases h0 : rows.length = 0
  · simp [h0]
  · by_cases hm : missing = []
    · have hiff := filter_length_eq_iff_all (fun r => r.exact) rows
      by_cases hx : (rows.filter (fun r => r.exact)).length = rows.length
      · simp [h0, hm, hx, hiff.mp hx]
      · have hall : ¬ (rows.all (fun r => r.exact) = true) := fun h => hx (hiff.mpr h)
        simp [h0, hm, hx, hall]
    · simp [h0, hm]

theorem lcsLength_self (a : List String) : lcsLength a a = a.length := by
  induction a with
  | nil => simp [lcsLength]
  | cons x xs ih => simp [lcsLength, ih, Nat.add_comm]

theorem seq_ratio_self (a : List String) : seq_ratio a a = 1 := by
  by_cases h : a = []
  · simp [seq_ratio, h]
  · have hlen : (0 : ℚ) < (a.length : ℚ) := by
      exact_mod_cast List.length_pos.mpr h
    unfold seq_ratio
    rw [if_neg (by simp [h]), if_neg (by simp [h])]
    unfold sequenceMatcherRatio
    rw [lcsLength_self, ← two_mul]
    exact div_self (by positivity)

theorem count_jaccard_self (m : List (String × Nat)) : count_jaccard m m = 1 := by
  unfold count_jaccard
  by_cases hk : ((m.map Prod.fst) ++ (m.map Prod.fst)).dedup = []
  · simp [hk]
  · simp only [if_neg hk, min_self, max_self]
    by_cases hS : ((((m.map Prod.fst) ++ (m.map Prod.fst)).dedup).map
        (fun k => lookup0 m k)).sum = 0
    · simp [hS]
    · rw [if_neg hS]
      exact div_self (by exact_mod_cast hS)

theorem meta_diff_self (m : List (String × String)) : meta_diff m m = [] := by
  unfold meta_diff
  apply List.filter_eq_nil.mpr
  intro k _
  simp

theorem makeRow_self (th : Thresholds) (u : UnitAnalysis) :
    (makeRow th u u).exact = true ∧ (makeRow th u u).seq_ratio = 1 ∧
    (makeRow th u u).count_jaccard = 1 ∧ (makeRow th u u).block_jaccard = 1 ∧
    (makeRow th u u).edge_jaccard = 1 ∧ (makeRow th u u).semantic_score = 1 := by
  unfold makeRow multiset_jaccard
  refine ⟨by simp, by simp [seq_ratio_self], by simp [count_jaccard_self],
    by simp [count_jaccard_self], by simp [count_jaccard_self], ?_⟩
  simp only [count_jaccard_self, seq_ratio_self]
  norm_num [semantic_score]

theorem compareRows_self_aux (th : Thresholds) (all : List UnitAnalysis) :
    ∀ (rest pre : List UnitAnalysis), all = pre ++ rest →
      ∀ seen : String → Nat,
        (∀ p, seen p = ((pre.filter (fun v => v.path = p)).length)) →
        compareRows th all rest seen = (rest.map (fun u => makeRow th u u), []) := by
  intro rest
  induction rest with
  | nil =>
    intro pre hall seen hseen
    simp [compareRows]
  | cons u rest ih =>
    intro pre hall seen hseen
    have hcand : ((all.filter (fun v => v.path = u.path)).get? (seen u.path)) = some u := by
      subst hall
      rw [List.filter_append, hseen u.path, List.get?_append_right (le_refl _)]
      simp [List.filter_cons]
    have hrec := ih (pre ++ [u]) (by simp [hall])
      (fun p => if p = u.path then seen u.path + 1 else seen p)
      (by
        intro p
        dsimp only
        by_cases hp : p = u.path
        · rw [hp, if_pos rfl, hseen u.path]
          simp [List.filter_append, List.filter_cons]
        · rw [if_neg hp, hseen p]
          simp [List.filter_append, List.filter_cons, Ne.symm hp])
    simp only [compareRows, hcand, hrec]
    rfl

theorem compareRows_self (th : Thresholds) (units : List UnitAnalysis) :
    compareRows th units units (fun _ => 0) =
      (units.map (fun u => makeRow th u u), []) := by
  apply compareRows_self_aux th units units [] rfl
  intro p
  simp

/-! ## Claim C2: the overall verdict rule -/

/-- C2: for any comparison past the version gate, the overall verdict
equals the spec's rule — mismatch when zero units were compared or some
unit has no counterpart; else exact when every compared unit is exact;
else close iff avg_seq_ratio, min_seq_ratio, avg_count_jaccard,
avg_block_jaccard, avg_edge_jaccard and avg_semantic_score all clear
their (configurable) thresholds; else mismatch — and the default
thresholds are 0.97, 0.90, 0.95, 0.95, 0.95, 0.95. -/
theorem c2_overall_verdict :
    (∀ (origVer : List Nat) (origUnits compUnits : List UnitAnalysis) (th : Thresholds),
      (compare_main origVer origVer origUnits compUnits th).verdict =
        verdictSpec th ((compareRows th compUnits origUnits (fun _ => 0)).1)
          ((compareRows th compUnits origUnits (fun _ => 0)).2)) ∧
    defaultThresholds =
      { avg_ratio := 0.97, min_unit_ratio := 0.90, min_count_jaccard := 0.95,
        min_block_jaccard := 0.95, min_edge_jaccard := 0.95,
        min_semantic_score := 0.95 } := by
  refine ⟨?_, rfl⟩
  intro origVer origUnits compUnits th
  unfold compare_main
  rw [if_neg (by simp)]
  exact computeVerdict_eq_verdictSpec th _ _

/-! ## Claim C5: the version gate -/

/-- C5: when the loader versions of the two artifacts differ, compare
produces verdict mismatch with version_mismatch true, units_compared 0,
an empty rows array, and no per-unit data. -/
theorem c5_version_gate (origVer compVer : List Nat)
    (origUnits compUnits : List UnitAnalysis) (th : Thresholds)
    (h : origVer ≠ compVer) :
    (compare_main origVer compVer origUnits compUnits th).verdict = "mismatch" ∧
    (compare_main origVer compVer origUnits compUnits th).summary.version_mismatch = true ∧
    (compare_main origVer compVer origUnits compUnits th).summary.units_compared = 0 ∧
    (compare_main origVer compVer origUnits compUnits th).rows = [] := by
  simp [compare_main, h, versionMismatchSummary]

/-- Witness for C5 at concrete versions (3, 9, 0) versus (3, 12, 0). -/
theorem c5_version_gate_witness :
    (compare_main [3, 9, 0] [3, 12, 0] [] [] defaultThresholds).verdict = "mismatch" ∧
    (compare_main [3, 9, 0] [3, 12, 0] [] [] defaultThresholds).summary.version_mismatch = true ∧
    (compare_main [3, 9, 0] [3, 12, 0] [] [] defaultThresholds).summary.units_compared = 0 ∧
    (compare_main [3, 9, 0] [3, 12, 0] [] [] defaultThresholds).rows = [] :=
  c5_version_gate [3, 9, 0] [3, 12, 0] [] [] defaultThresholds (by decide)

/-! ## Claim C6: reflexivity of the comparison -/

/-- C6: comparing a nonempty analysis against an identical copy of itself
yields verdict exact, every row exact, and every per-unit metric 1.0. -/
theorem c6_reflexivity (origVer : List Nat) (units : List UnitAnalysis)
    (th : Thresholds) (h : units ≠ []) :
    (compare_main origVer origVer units units th).verdict = "exact" ∧
    ∀ r ∈ (compare_main origVer origVer units units th).rows,
      r.exact = true ∧ r.seq_ratio = 1 ∧ r.count_jaccard = 1 ∧
      r.block_jaccard = 1 ∧ r.edge_jaccard = 1 ∧ r.semantic_score = 1 := by
  have hrows := compareRows_self th units
  have hrow : ∀ r ∈ units.map (fun u => makeRow th u u),
      r.exact = true ∧ r.seq_ratio = 1 ∧ r.count_jaccard = 1 ∧
      r.block_jaccard = 1 ∧ r.edge_jaccard = 1 ∧ r.semantic_score = 1 := by
    intro r hr
    obtain ⟨u, _, rfl⟩ := List.mem_map.mp hr
    exact makeRow_self th u
  constructor
  · show (compare_main origVer origVer units units th).verdict = "exact"
    unfold compare_main
    rw [if_neg (by simp)]
    have hexact : ((units.map (fun u => makeRow th u u)).filter
        (fun r => r.exact)).length = (units.map (fun u => makeRow th u u)).length := by
      apply (filter_length_eq_iff_all _ _).mpr
      apply List.all_eq_true.mpr
      intro r hr
      exact (hrow r hr).1
    simp only [hrows, computeVerdict]
    rw [if_neg (by simp [h]), if_neg (by simp), if_pos hexact]
  · intro r hr
    apply hrow
    have : (compare_main origVer origVer units units th).rows =
        units.map (fun u => makeRow th u u) := by
      unfold compare_main
      rw [if_neg (by simp)]
      simp [hrows]
    rwa [this] at hr

/-- A small concrete unit analysis used to witness C6. -/
def sampleUnit : UnitAnalysis :=
  { path := "<module>", meta := [("flags", "64")],
    norm_ops := ["const:const:none", "return"],
    op_counts := [("const", 1), ("return", 1)],
    block_sig_counts := [("abcdefabcdef", 1)], edge_sig_counts := [],
    block_sigs := [], cfg_sig := { block_count := 1, edge_count := 0, loop_edges := 0 } }

/-- Witness for C6 at a concrete one-unit analysis. -/
theorem c6_reflexivity_witness :
    (compare_main [3, 9, 0] [3, 9, 0] [sampleUnit] [sampleUnit]
        defaultThresholds).verdict = "exact" ∧
    ∀ r ∈ (compare_main [3, 9, 0] [3, 9, 0] [sampleUnit] [sampleUnit]
        defaultThresholds).rows,
      r.exact = true ∧ r.seq_ratio = 1 ∧ r.count_jaccard = 1 ∧
      r.block_jaccard = 1 ∧ r.edge_jaccard = 1 ∧ r.semantic_score = 1 :=
  c6_reflexivity [3, 9, 0] [sampleUnit] defaultThresholds (by simp)

/-! ## Helper lemmas for the CFG edge rules (claim C3) -/

theorem resolvedTargetEdges_src (blocks : List Block) (b : Block) (last : Instr)
    (k : EdgeKind) : ∀ e ∈ resolvedTargetEdges blocks b last k, e.src = b.id := by
  intro e he
  rcases ha : last.argval.asInt with _ | t
  · simp [resolvedTargetEdges, ha] at he
  · rcases ho : offToBlock blocks t with _ | d
    · simp [resolvedTargetEdges, ha, ho] at he
    · simp [resolvedTargetEdges, ha, ho] at he
      rw [he]

theorem fallthroughEdge_src (b : Block) (next? : Option Nat) :
    ∀ e ∈ fallthroughEdge b next?, e.src = b.id := by
  intro e he
  rcases next? with _ | nb
  · simp [fallthroughEdge] at he
  · simp [fallthroughEdge] at he
    rw [he]

theorem blockOutEdges_src (blocks : List Block) (b : Block) (next? : Option Nat) :
    ∀ e ∈ blockOutEdges blocks b next?, e.src = b.id := by
  intro e he
  rcases hlast : b.instrs.getLast? with _ | last
  · simp [blockOutEdges, hlast] at he
  · simp only [blockOutEdges, hlast] at he
    by_cases h1 : is_cond_jump last.opname = true
    · rw [if_pos h1] at he
      rcases List.mem_append.mp he with hm | hm
      · exact resolvedTargetEdges_src blocks b last EdgeKind.cond e hm
      · exact fallthroughEdge_src b next? e hm
    · rw [if_neg h1] at he
      by_cases h2 : is_uncond_jump last.opname = true
      · rw [if_pos h2] at he
        exact resolvedTargetEdges_src blocks b last EdgeKind.jump e he
      · rw [if_neg h2] at he
        by_cases h3 : last.opname ∈ RETURN_OPS ∨ last.opname ∈ RAISE_OPS
        · rw [if_pos h3] at he
          simp at he
        · rw [if_neg h3] at he
          exact fallthroughEdge_src b next? e he

theorem buildBlocksAux_cons (instrs : List Instr) (start : Nat) (rest : List Nat)
    (n : Nat) :
    buildBlocksAux instrs (start :: rest) n =
      if blockInstrs instrs start rest.head? = [] then buildBlocksAux instrs rest n
      else ⟨n, start, blockInstrs instrs start rest.head?⟩ ::
        buildBlocksAux instrs rest (n + 1) := rfl

theorem buildEdgesAux_cons (blocks : List Block) (b : Block) (rest : List Block) :
    buildEdgesAux blocks (b :: rest) =
      blockOutEdges blocks b (rest.head?.map (·.id)) ++ buildEdgesAux blocks rest := rfl

theorem buildBlocksAux_id_of_get? (instrs : List Instr) :
    ∀ (leaders : List Nat) (n i : Nat) (b : Block),
      (buildBlocksAux instrs leaders n).get? i = some b → b.id = n + i := by
  intro leaders
  induction leaders with
  | nil =>
    intro n i b h
    simp [buildBlocksAux] at h
  | cons start rest ih =>
    intro n i b h
    rw [buildBlocksAux_cons] at h
    by_cases hb : blockInstrs instrs start rest.head? = []
    · rw [if_pos hb] at h
      exact ih n i b h
    · rw [if_neg hb] at h
      match i with
      | 0 =>
        simp at h
        rw [← h]
        rfl
      | j + 1 =>
        have := ih (n + 1) j b (by simpa using h)
        omega

theorem buildBlocksAux_id_eq (instrs : List Instr) (leaders : List Nat)
    (n i : Nat) (h : i < (buildBlocksAux instrs leaders n).length) :
    ((buildBlocksAux instrs leaders n).get ⟨i, h⟩).id = n + i :=
  buildBlocksAux_id_of_get? instrs leaders n i _ (List.get?_eq_get h)

theorem filter_bea_zero (blocks : List Block) (i : Nat) :
    ∀ suf : List Block, (∀ b ∈ suf, b.id ≠ i) →
      (buildEdgesAux blocks suf).filter (fun e => e.src = i) = [] := by
  intro suf
  induction suf with
  | nil => intro _; simp [buildEdgesAux]
  | cons b rest ih =>
    intro hne
    rw [buildEdgesAux_cons, List.filter_append,
      ih (fun b' hb' => hne b' (List.mem_cons_of_mem _ hb'))]
    rw [List.filter_eq_nil_iff.mpr, List.nil_append]
    intro e he
    have hsrc := blockOutEdges_src blocks b _ e he
    simp [hsrc, hne b (List.mem_cons_self b rest)]

theorem filter_bea_cons (blocks : List Block) (i : Nat) (b : Block)
    (rest : List Block) (hb : b.id = i) (hne : ∀ b' ∈ rest, b'.id ≠ i) :
    (buildEdgesAux blocks (b :: rest)).filter (fun e => e.src = i) =
      blockOutEdges blocks b (rest.head?.map (·.id)) := by
  rw [buildEdgesAux_cons, List.filter_append, filter_bea_zero blocks i rest hne,
    List.append_nil]
  apply List.filter_eq_self.mpr
  intro e he
  have hsrc := blockOutEdges_src blocks b _ e he
  simp [hsrc, hb]

theorem mem_drop_id_ne (blocks : List Block) (i : Nat)
    (hids : ∀ j (hj : j < blocks.length), (blocks.get ⟨j, hj⟩).id = j) :
    ∀ b ∈ blocks.drop (i + 1), b.id ≠ i := by
  intro b hb
  obtain ⟨m, hget⟩ := List.mem_iff_get.mp hb
  have hlt : i + 1 + m.1 < blocks.length := by
    have := m.2
    simp only [List.length_drop] at this
    omega
  have : (blocks.drop (i + 1)).get m = blocks.get ⟨i + 1 + m.1, hlt⟩ := by
    simp [List.get_drop]
  rw [this] at hget
  rw [← hget, hids (i + 1 + m.1) hlt]
  omega

theorem filter_bea_skip (blocks : List Block) (i : Nat)
    (hids : ∀ j (hj : j < blocks.length), (blocks.get ⟨j, hj⟩).id = j)
    (hi : i < blocks.length) :
    ∀ (d k : Nat), k + d = i →
      (buildEdgesAux blocks (blocks.drop k)).filter (fun e => e.src = i) =
        blockOutEdges blocks (blocks.get ⟨i, hi⟩)
          (((blocks.drop (i + 1)).head?).map (·.id)) := by
  intro d
  induction d with
  | zero =>
    intro k hk
    have hk' : k = i := by omega
    subst hk'
    have hdrop : blocks.drop k = blocks.get ⟨k, hi⟩ :: blocks.drop (k + 1) := by
      rw [List.drop_eq_get_cons]
    rw [hdrop]
    have hrest : ∀ b' ∈ blocks.drop (k + 1), b'.id ≠ k := mem_drop_id_ne blocks k hids
    rw [filter_bea_cons blocks k (blocks.get ⟨k, hi⟩) (blocks.drop (k + 1))
      (hids k hi) hrest]
  | succ d ih =>
    intro k hk
    have hklt : k < blocks.length := by omega
    have hdrop : blocks.drop k = blocks.get ⟨k, hklt⟩ :: blocks.drop (k + 1) := by
      rw [List.drop_eq_get_cons]
    rw [hdrop, buildEdgesAux_cons, List.filter_append]
    have hfirst : (blockOutEdges blocks (blocks.get ⟨k, hklt⟩)
        (((blocks.drop (k + 1)).head?).map (·.id))).filter (fun e => e.src = i) = [] := by
      apply List.filter_eq_nil_iff.mpr
      intro e he
      have hsrc := blockOutEdges_src blocks _ _ e he
      have hidk : blocks[k].id = k := by simpa using hids k hklt
      simp [hsrc, hidk]
      omega
    rw [hfirst, List.nil_append]
    exact ih (k + 1) (by omega)

/-- Edges of the CFG built from `instrs` whose source block id is `i`. -/
def cfgOutEdges (instrs : List Instr) (i : Nat) : List Edge :=
  ((build_cfg instrs).2).filter (fun e => e.src = i)

theorem cfg_block_id (instrs : List Instr) (i : Nat)
    (h : i < (build_cfg instrs).1.length) :
    ((build_cfg instrs).1.get ⟨i, h⟩).id = i := by
  match instrs with
  | [] => simp [build_cfg] at h
  | a :: rest =>
    have := buildBlocksAux_id_eq (a :: rest) (leadersOf (a :: rest)) 0 i
      (by simpa [build_cfg] using h)
    simpa [build_cfg] using this

/-! ## Claim C3: per-block outgoing-edge rules -/

/-- C3 counterexample: in the CFG of the single-instruction sequence
`[POP_JUMP_IF_FALSE → offset 0]`, the unique block ends in a conditional
branch yet the CFG has a cond edge only and no fallthrough edge, because
no following block exists — the claim's unqualified "emits both a cond
edge and a fallthrough edge" fails. -/
theorem c3_counterexample :
    (build_cfg [⟨0, "POP_JUMP_IF_FALSE", 0, PyVal.pyint 0, ""⟩]).1.length = 1 ∧
    is_cond_jump "POP_JUMP_IF_FALSE" = true ∧
    (build_cfg [⟨0, "POP_JUMP_IF_FALSE", 0, PyVal.pyint 0, ""⟩]).2 =
      [⟨0, 0, EdgeKind.cond⟩] ∧
    ((build_cfg [⟨0, "POP_JUMP_IF_FALSE", 0, PyVal.pyint 0, ""⟩]).2.filter
      (fun e => e.kind = EdgeKind.fallthrough)) = [] := by
  refine ⟨by decide, by decide, by decide, by decide⟩

/-- C3 amended: for every block of a built CFG, writing `last` for its
last instruction: a conditional-branch block emits a cond edge exactly
when its target resolves through off_to_block, plus a fallthrough edge
exactly when a following block exists; an unconditional jump emits
exactly one jump edge when its target resolves and none otherwise (the
omission is not fatal — the CFG is still produced); a return or raise
block emits no outgoing edges; every other block emits a fallthrough
edge exactly when a following block exists. -/
theorem c3_edge_rules (instrs : List Instr) (i : Nat)
    (h : i < (build_cfg instrs).1.length) (last : Instr)
    (hlast : ((build_cfg instrs).1.get ⟨i, h⟩).instrs.getLast? = some last) :
    (is_cond_jump last.opname = true →
      cfgOutEdges instrs i =
        resolvedTargetEdges (build_cfg instrs).1 ((build_cfg instrs).1.get ⟨i, h⟩)
            last EdgeKind.cond ++
          fallthroughEdge ((build_cfg instrs).1.get ⟨i, h⟩)
            (((build_cfg instrs).1.get? (i + 1)).map (·.id))) ∧
    (is_cond_jump last.opname = false → is_uncond_jump last.opname = true →
      cfgOutEdges instrs i =
        resolvedTargetEdges (build_cfg instrs).1 ((build_cfg instrs).1.get ⟨i, h⟩)
          last EdgeKind.jump) ∧
    (is_cond_jump last.opname = false → is_uncond_jump last.opname = false →
      (last.opname ∈ RETURN_OPS ∨ last.opname ∈ RAISE_OPS) →
      cfgOutEdges instrs i = []) ∧
    (is_cond_jump last.opname = false → is_uncond_jump last.opname = false →
      ¬ (last.opname ∈ RETURN_OPS ∨ last.opname ∈ RAISE_OPS) →
      cfgOutEdges instrs i =
        fallthroughEdge ((build_cfg instrs).1.get ⟨i, h⟩)
          (((build_cfg instrs).1.get? (i + 1)).map (·.id))) := by
  match instrs with
  | [] => simp [build_cfg] at h
  | a :: rest =>
    have hfull : cfgOutEdges (a :: rest) i =
        blockOutEdges (build_cfg (a :: rest)).1 ((build_cfg (a :: rest)).1.get ⟨i, h⟩)
          (((build_cfg (a :: rest)).1.get? (i + 1)).map (·.id)) := by
      have hids : ∀ j (hj : j < (build_cfg (a :: rest)).1.length),
          ((build_cfg (a :: rest)).1.get ⟨j, hj⟩).id = j :=
        fun j hj => cfg_block_id (a :: rest) j hj
      have hskip := filter_bea_skip (build_cfg (a :: rest)).1 i hids h i 0 (by omega)
      have hdrop0 : ((build_cfg (a :: rest)).1).drop 0 = (build_cfg (a :: rest)).1 :=
        List.drop_zero _
      rw [hdrop0] at hskip
      have hhead : (((build_cfg (a :: rest)).1).drop (i + 1)).head? =
          ((build_cfg (a :: rest)).1).get? (i + 1) := by
        rw [List.head?_drop, List.get?_eq_getElem?]
      rw [hhead] at hskip
      have hedges : (build_cfg (a :: rest)).2 =
          buildEdgesAux (build_cfg (a :: rest)).1 (build_cfg (a :: rest)).1 := by
        simp [build_cfg]
      unfold cfgOutEdges
      rw [hedges]
      exact hskip
    refine ⟨?_, ?_, ?_, ?_⟩
    · intro hc
      rw [hfull]
      simp only [blockOutEdges, hlast]
      rw [if_pos hc]
    · intro hc hu
      rw [hfull]
      simp only [blockOutEdges, hlast]
      rw [if_neg (by simp [hc]), if_pos hu]
    · intro hc hu hr
      rw [hfull]
      simp only [blockOutEdges, hlast]
      rw [if_neg (by simp [hc]), if_neg (by simp [hu]), if_pos hr]
    · intro hc hu hr
      rw [hfull]
      simp only [blockOutEdges, hlast]
      rw [if_neg (by simp [hc]), if_neg (by simp [hu]), if_neg hr]

/-- Witness for C3 at a concrete two-block CFG: block 0 ends in a
conditional branch whose target resolves to block 1, and a following
block exists, so both a cond edge and a fallthrough edge are emitted. -/
theorem c3_edge_rules_witness :
    cfgOutEdges
        [⟨0, "POP_JUMP_IF_FALSE", 0, PyVal.pyint 4, ""⟩,
         ⟨4, "RETURN_VALUE", 0, PyVal.pynone, ""⟩] 0 =
      [⟨0, 1, EdgeKind.cond⟩, ⟨0, 1, EdgeKind.fallthrough⟩] := by
  have h := (c3_edge_rules
    [⟨0, "POP_JUMP_IF_FALSE", 0, PyVal.pyint 4, ""⟩,
     ⟨4, "RETURN_VALUE", 0, PyVal.pynone, ""⟩] 0 (by decide)
    ⟨0, "POP_JUMP_IF_FALSE", 0, PyVal.pyint 4, ""⟩ (by decide)).1 (by decide)
  rw [h]
  decide

/-! ## Reachability soundness (claim C7) -/

/-- One edge step over an edge list. -/
def edgeRel (es : List Edge) (x y : Nat) : Prop :=
  ∃ e, e ∈ es ∧ e.src = x ∧ e.dst = y

/-- Reachability along edges whose endpoints both lie in `S`. -/
def ReachIn (es : List Edge) (S : Finset Nat) (start x : Nat) : Prop :=
  Relation.ReflTransGen (fun a b => a ∈ S ∧ b ∈ S ∧ edgeRel es a b) start x

/-- Plain reachability over an edge list. -/
def reachesOver (es : List Edge) (a b : Nat) : Prop :=
  Relation.ReflTransGen (edgeRel es) a b

theorem ReachIn.mono_set {es : List Edge} {S T : Finset Nat} {start x : Nat}
    (hST : S ⊆ T) (h : ReachIn es S start x) : ReachIn es T start x := by
  refine Relation.ReflTransGen.mono ?_ h
  rintro a b ⟨ha, hb, he⟩
  exact ⟨hST ha, hST hb, he⟩

theorem edgeRel_of_mem_adjOf {es : List Edge} {b x : Nat}
    (hx : x ∈ adjOf es b) : edgeRel es b x := by
  simp only [adjOf, List.mem_map, List.mem_filter] at hx
  obtain ⟨e, ⟨he, hsrc⟩, hdst⟩ := hx
  exact ⟨e, he, by simpa using hsrc, hdst⟩

theorem reachesOver_filter_of_ReachIn {es : List Edge} {S : Finset Nat}
    {start x : Nat} (h : ReachIn es S start x) :
    reachesOver (es.filter (fun e => e.src ∈ S ∧ e.dst ∈ S)) start x := by
  refine Relation.ReflTransGen.mono ?_ h
  rintro a b ⟨ha, hb, e, he, hsrc, hdst⟩
  refine ⟨e, List.mem_filter.mpr ⟨he, ?_⟩, hsrc, hdst⟩
  simp [hsrc, hdst, ha, hb]

theorem dfsAux_sound (es : List Edge) (start : Nat) :
    ∀ (fuel : Nat) (stack : List Nat) (seen : Finset Nat),
      (∀ x ∈ seen, ReachIn es seen start x) →
      (∀ x ∈ stack, x = start ∨ ∃ a ∈ seen, edgeRel es a x) →
      ∀ x ∈ dfsAux es fuel stack seen,
        ReachIn es (dfsAux es fuel stack seen) start x := by
  intro fuel
  induction fuel with
  | zero =>
    intro stack seen hseen _ x hx
    simp only [dfsAux] at hx ⊢
    exact hseen x hx
  | succ fuel ih =>
    intro stack seen hseen hstack x hx
    match stack with
    | [] =>
      simp only [dfsAux] at hx ⊢
      exact hseen x hx
    | b :: rest =>
      by_cases hb : b ∈ seen
      · simp only [dfsAux, if_pos hb] at hx ⊢
        exact ih rest seen hseen
          (fun y hy => hstack y (List.mem_cons_of_mem _ hy)) x hx
      · simp only [dfsAux, if_neg hb] at hx ⊢
        have hseen' : ∀ y ∈ insert b seen, ReachIn es (insert b seen) start y := by
          intro y hy
          rcases Finset.mem_insert.mp hy with rfl | hy'
          · rcases hstack y (List.mem_cons_self y rest) with rfl | ⟨a, ha, hrel⟩
            · exact Relation.ReflTransGen.refl
            · refine Relation.ReflTransGen.tail
                ((hseen a ha).mono_set (Finset.subset_insert _ _)) ?_
              exact ⟨Finset.mem_insert_of_mem ha, Finset.mem_insert_self _ _, hrel⟩
          · exact (hseen y hy').mono_set (Finset.subset_insert _ _)
        have hstack' : ∀ y ∈ rest ++ adjOf es b,
            y = start ∨ ∃ a ∈ insert b seen, edgeRel es a y := by
          intro y hy
          rcases List.mem_append.mp hy with hy' | hy'
          · rcases hstack y (List.mem_cons_of_mem _ hy') with rfl | ⟨a, ha, hrel⟩
            · exact Or.inl rfl
            · exact Or.inr ⟨a, Finset.mem_insert_of_mem ha, hrel⟩
          · exact Or.inr ⟨b, Finset.mem_insert_self _ _, edgeRel_of_mem_adjOf hy'⟩
        exact ih (rest ++ adjOf es b) (insert b seen) hseen' hstack' x hx

/-- Everything the worklist sweep collects is reachable from the start
block over edges internal to the collected set. -/
theorem reachable_blocks_sound (b0 : Block) (tl : List Block) (es : List Edge) :
    ∀ x ∈ reachable_blocks (b0 :: tl) es,
      ReachIn es (reachable_blocks (b0 :: tl) es) b0.id x := by
  intro x hx
  exact dfsAux_sound es b0.id (es.length + 2) [b0.id] ∅
    (by intro y hy; simp at hy)
    (by
      intro y hy
      rcases List.mem_singleton.mp hy with rfl
      exact Or.inl rfl)
    x hx

/-- C7: in every UnitAnalysis produced by analyze_code, every recorded
block signature belongs to a block reachable from block 0 over the
retained edge set, block_count is the number of block signatures, and
edge_count is the number of retained edges. -/
theorem c7_reachability (opc : Opc) (sha1 : String → String) (meta : CodeMeta)
    (instrs0 : List Instr) (path : String) :
    (∀ s ∈ (analyze_code opc sha1 meta instrs0 path).block_sigs,
      reachesOver (analyzeBlocks (normalize_instructions instrs0)).2 0 s.id) ∧
    (analyze_code opc sha1 meta instrs0 path).cfg_sig.block_count =
      (analyze_code opc sha1 meta instrs0 path).block_sigs.length ∧
    (analyze_code opc sha1 meta instrs0 path).cfg_sig.edge_count =
      (analyzeBlocks (normalize_instructions instrs0)).2.length := by
  refine ⟨?_, ?_, ?_⟩
  · intro s hs
    have hsig : (analyze_code opc sha1 meta instrs0 path).block_sigs =
        (analyzeBlocks (normalize_instructions instrs0)).1.map (mkBlockSig opc sha1) := rfl
    rw [hsig] at hs
    obtain ⟨b, hb, rfl⟩ := List.mem_map.mp hs
    have hb' := List.mem_filter.mp hb
    have hreach : b.id ∈ reachable_blocks (build_cfg (normalize_instructions instrs0)).1
        (build_cfg (normalize_instructions instrs0)).2 := by
      simpa using hb'.2
    rcases hblocks : (build_cfg (normalize_instructions instrs0)).1 with _ | ⟨b0, tl⟩
    · rw [hblocks] at hreach
      simp [reachable_blocks] at hreach
    · rw [hblocks] at hreach
      have hsound := reachable_blocks_sound b0 tl
        (build_cfg (normalize_instructions instrs0)).2 b.id hreach
      have hb0 : b0.id = 0 := by
        have h0 : 0 < (build_cfg (normalize_instructions instrs0)).1.length := by
          rw [hblocks]; simp
        have := cfg_block_id (normalize_instructions instrs0) 0 h0
        have hget : (build_cfg (normalize_instructions instrs0)).1.get ⟨0, h0⟩ = b0 := by
          simp [hblocks]
        rw [hget] at this
        exact this
      have hfilter := reachesOver_filter_of_ReachIn hsound
      show reachesOver (analyzeBlocks (normalize_instructions instrs0)).2 0
        (mkBlockSig opc sha1 b).id
      have hid : (mkBlockSig opc sha1 b).id = b.id := rfl
      have hedges : (analyzeBlocks (normalize_instructions instrs0)).2 =
          ((build_cfg (normalize_instructions instrs0)).2).filter
            (fun e => e.src ∈ reachable_blocks (build_cfg (normalize_instructions instrs0)).1
                (build_cfg (normalize_instructions instrs0)).2 ∧
              e.dst ∈ reachable_blocks (build_cfg (normalize_instructions instrs0)).1
                (build_cfg (normalize_instructions instrs0)).2) := rfl
      rw [hid, ← hb0, hedges, hblocks]
      exact hfilter
  · show (analyzeBlocks (normalize_instructions instrs0)).1.length =
      ((analyzeBlocks (normalize_instructions instrs0)).1.map (mkBlockSig opc sha1)).length
    simp
  · rfl

/-- A trivial opcode table, hash and metadata used by the C7 witness. -/
def opcNone : Opc := fun _ => none

def sha1None : String → String := fun _ => ""

def metaEx : CodeMeta := ⟨0, 0, 0, 0, 0, 64, [], [], [], []⟩

def instrsEx : List Instr :=
  [⟨0, "LOAD_CONST", 0, PyVal.pynone, ""⟩, ⟨2, "RETURN_VALUE", 0, PyVal.pynone, ""⟩]

def sigEx : BlockSig :=
  { id := 0, start := 0, sig := "", stack_delta := 0, stack_max := 0,
    stack_min := 0, op_seq_hash := "", consts := [("const:none", 1)],
    names := [], call_bins := [] }

/-- Witness for C7 at a concrete straight-line unit: the single recorded
block signature has id 0 and is reachable from block 0. -/
theorem c7_reachability_witness :
    sigEx ∈ (analyze_code opcNone sha1None metaEx instrsEx "<module>").block_sigs ∧
    reachesOver (analyzeBlocks (normalize_instructions instrsEx)).2 0 sigEx.id :=
  ⟨by decide,
   (c7_reachability opcNone sha1None metaEx instrsEx "<module>").1 sigEx (by decide)⟩

/-! ## Mismatch localization (locate_mismatch.py; claim C4)

The localizer compares the two raw instruction dumps pairwise on
`(opname, argrepr)`; a dumped instruction is modelled by that pair. -/

/-- The first-divergence scan of locate_mismatch.main: the first index at
which the `(op, argrepr)` pairs differ; if none differs over the common
prefix and the lengths differ, the common length; otherwise none. -/
def firstMismatch : List (String × String) → List (String × String) → Option Nat
  | a :: as, b :: bs =>
    if a ≠ b then some 0 else (firstMismatch as bs).map (· + 1)
  | as, bs => if as.length ≠ bs.length then some 0 else none

/-- locate_mismatch.main's context-window bounds: `ctx_start` and
`ctx_end` are computed once — with the end clamped by the lengths of BOTH
sides — and each side's window is `[ctx_start, min ctx_end len_side)`. -/
def contextRanges (orig comp : List (String × String)) (R : Nat) :
    (Nat × Nat) × (Nat × Nat) :=
  let m := (firstMismatch orig comp).getD 0
  let s := m - R
  let e := max s (min (min orig.length comp.length) (m + R + 1))
  ((s, min e orig.length), (s, min e comp.length))

/-- The argparse default of --context in locate_mismatch.py. -/
def contextDefault : Nat := 8

theorem firstMismatch_spec :
    ∀ (orig comp : List (String × String)) (i : Nat),
      firstMismatch orig comp = some i →
      orig.take i = comp.take i ∧
      ((i < min orig.length comp.length ∧ orig.get? i ≠ comp.get? i) ∨
       (i = min orig.length comp.length ∧ orig.length ≠ comp.length)) := by
  intro orig
  induction orig with
  | nil =>
    intro comp i h
    simp only [firstMismatch] at h
    split at h
    · rename_i hlen
      simp only [Option.some.injEq] at h
      subst h
      refine ⟨by simp, Or.inr ⟨by simp, hlen⟩⟩
    · simp at h
  | cons a as ih =>
    intro comp i h
    match comp with
    | [] =>
      simp only [firstMismatch] at h
      split at h
      · rename_i hlen
        simp only [Option.some.injEq] at h
        subst h
        refine ⟨by simp, Or.inr ⟨by simp, hlen⟩⟩
      · simp at h
    | b :: bs =>
      simp only [firstMismatch] at h
      by_cases hab : a ≠ b
      · rw [if_pos hab] at h
        simp only [Option.some.injEq] at h
        subst h
        refine ⟨by simp, Or.inl ⟨?_, by simpa using hab⟩⟩
        simp only [List.length_cons]
        omega
      · rw [if_neg hab] at h
        push_neg at hab
        rcases hrec : firstMismatch as bs with _ | j
        · rw [hrec] at h
          simp at h
        · rw [hrec] at h
          simp at h
          subst h
          obtain ⟨htake, hrest⟩ := ih bs j hrec
          constructor
          · simp [List.take_succ_cons, hab, htake]
          · rcases hrest with ⟨hlt, hne⟩ | ⟨heq, hne⟩
            · left
              refine ⟨?_, by simpa using hne⟩
              simp only [List.length_cons]
              omega
            · right
              refine ⟨?_, by simpa using hne⟩
              simp only [List.length_cons]
              omega

/-- C4 counterexample: with orig of length 3 and comp of length 12 equal
on the common prefix, the mismatch index is 3 and the comp-side context
window ends at 3 — clamped by the SHORTER side's length — not at
min(12, 3+8+1) = 12 as the claim's per-side window requires. -/
theorem c4_counterexample :
    firstMismatch
        [("LOAD_CONST", "1"), ("LOAD_CONST", "2"), ("BINARY_ADD", "")]
        ([("LOAD_CONST", "1"), ("LOAD_CONST", "2"), ("BINARY_ADD", "")] ++
          List.replicate 9 ("RETURN_VALUE", "")) = some 3 ∧
    (contextRanges
        [("LOAD_CONST", "1"), ("LOAD_CONST", "2"), ("BINARY_ADD", "")]
        ([("LOAD_CONST", "1"), ("LOAD_CONST", "2"), ("BINARY_ADD", "")] ++
          List.replicate 9 ("RETURN_VALUE", "")) 8).2 = (0, 3) ∧
    ((0 : Nat), (3 : Nat)) ≠
      (0, min ([("LOAD_CONST", "1"), ("LOAD_CONST", "2"), ("BINARY_ADD", "")] ++
          List.replicate 9 ("RETURN_VALUE", "")).length (3 + 8 + 1)) := by
  refine ⟨by decide, by decide, by decide⟩

/-- C4 amended: the localizer returns the first index at which the
`(opname, argrepr)` pairs differ (so the prefixes up to it agree, and at
it they differ when both sides are long enough), with `i = min(len)` when
no pair differs and the lengths differ; both context windows start at
`max(0, i − R)` (default R = 8) and share one end,
`max(start, min(len_orig, len_comp, i + R + 1))`, each further clamped to
its own side's length — so the window end is bounded by the SHORTER
side's length on both sides, not by each side's own length. -/
theorem c4_localizer (orig comp : List (String × String)) (i R : Nat)
    (h : firstMismatch orig comp = some i) :
    orig.take i = comp.take i ∧
    ((i < min orig.length comp.length ∧ orig.get? i ≠ comp.get? i) ∨
     (i = min orig.length comp.length ∧ orig.length ≠ comp.length)) ∧
    contextRanges orig comp R =
      ((i - R, min (max (i - R) (min (min orig.length comp.length) (i + R + 1)))
          orig.length),
       (i - R, min (max (i - R) (min (min orig.length comp.length) (i + R + 1)))
          comp.length)) ∧
    contextDefault = 8 := by
  obtain ⟨htake, hrest⟩ := firstMismatch_spec orig comp i h
  refine ⟨htake, hrest, ?_, rfl⟩
  unfold contextRanges
  rw [h]
  rfl

/-- Witness for C4 at a concrete diverging pair of dumps. -/
theorem c4_localizer_witness :
    [(("LOAD_FAST", "x") : String × String), ("RETURN_VALUE", "")].take 1 =
        [(("LOAD_FAST", "x") : String × String), ("LOAD_CONST", "3")].take 1 ∧
    ((1 < min 2 2 ∧
        ([(("LOAD_FAST", "x") : String × String), ("RETURN_VALUE", "")].get? 1 ≠
          [(("LOAD_FAST", "x") : String × String), ("LOAD_CONST", "3")].get? 1)) ∨
     (1 = min 2 2 ∧ (2 : Nat) ≠ 2)) ∧
    contextRanges [("LOAD_FAST", "x"), ("RETURN_VALUE", "")]
        [("LOAD_FAST", "x"), ("LOAD_CONST", "3")] 8 =
      ((1 - 8, min (max (1 - 8) (min (min 2 2) (1 + 8 + 1))) 2),
       (1 - 8, min (max (1 - 8) (min (min 2 2) (1 + 8 + 1))) 2)) ∧
    contextDefault = 8 := by
  have h := c4_localizer [("LOAD_FAST", "x"), ("RETURN_VALUE", "")]
    [("LOAD_FAST", "x"), ("LOAD_CONST", "3")] 1 8 (by decide)
  simpa using h

/-! ## Delta-debugging minimizer (emit_min.py; claim C8)

Compilation of the rebuilt module plus the `same_unit` check against the
original artifact is deterministic in the set of kept top-level statement
indices, so it is abstracted as a predicate `T` on kept-index sets;
`keep` is the always-kept set (docstring, future imports, the statement
enclosing the target) and `removable` the candidate indices. -/

/-- Python `subsets = [removable[i:i+size] for i in range(0, len, size)]`;
the fuel is the list length, consumed at least one element per step. -/
def chunksAux {α : Type} (size : Nat) : Nat → List α → List (List α)
  | 0, _ => []
  | _ + 1, [] => []
  | fuel + 1, x :: xs =>
    (x :: xs).take (max 1 size) :: chunksAux size fuel ((x :: xs).drop (max 1 size))

/-- The inner `for subset in subsets` scan of emit_min.ddmin: the first
subset whose removal still passes the `same_unit` test, if any. -/
def firstSuccess (T : Finset Nat → Bool) (keep : Finset Nat) (removable : List Nat) :
    List (List Nat) → Option (List Nat)
  | [] => none
  | subset :: more =>
    if T (keep ∪ (removable.filter (fun idx => idx ∉ subset)).toFinset) then some subset
    else firstSuccess T keep removable more

/-- The `while removable and iters < max_iter` loop of emit_min.ddmin;
the fuel is `max_iter − iters`, consumed once per iteration, so fuel
exhaustion is exactly the iteration cap. -/
def ddminLoop (T : Finset Nat → Bool) (keep : Finset Nat) :
    Nat → List Nat → Nat → Nat → List Nat × Nat
  | 0, removable, _, iters => (removable, iters)
  | fuel + 1, removable, n, iters =>
    if removable = [] then (removable, iters)
    else
      let size := max 1 (removable.length / n)
      let subsets := chunksAux size removable.length removable
      match firstSuccess T keep removable subsets with
      | some subset =>
        ddminLoop T keep fuel (removable.filter (fun idx => idx ∉ subset)) 2 (iters + 1)
      | none =>
        if n ≥ removable.length then (removable, iters + 1)
        else ddminLoop T keep fuel removable (min removable.length (n * 2)) (iters + 1)

/-- emit_min.ddmin: the final kept-index set (keep ∪ surviving removable)
and the iteration count. -/
def ddmin (T : Finset Nat → Bool) (keep : Finset Nat) (removable : List Nat)
    (max_iter : Nat) : Finset Nat × Nat :=
  let r := ddminLoop T keep max_iter removable 2 0
  (keep ∪ r.1.toFinset, r.2)

theorem firstSuccess_sound (T : Finset Nat → Bool) (keep : Finset Nat)
    (removable : List Nat) :
    ∀ (subsets : List (List Nat)) (subset : List Nat),
      firstSuccess T keep removable subsets = some subset →
      T (keep ∪ (removable.filter (fun idx => idx ∉ subset)).toFinset) = true := by
  intro subsets
  induction subsets with
  | nil => intro subset h; simp [firstSuccess] at h
  | cons s more ih =>
    intro subset h
    simp only [firstSuccess] at h
    split at h
    · rename_i hT
      simp only [Option.some.injEq] at h
      subst h
      exact hT
    · exact ih subset h

theorem ddminLoop_sound (T : Finset Nat → Bool) (keep : Finset Nat) :
    ∀ (fuel : Nat) (removable : List Nat) (n iters : Nat),
      T (keep ∪ removable.toFinset) = true →
      T (keep ∪ (ddminLoop T keep fuel removable n iters).1.toFinset) = true := by
  intro fuel
  induction fuel with
  | zero => intro removable n iters h; exact h
  | succ fuel ih =>
    intro removable n iters h
    by_cases hr : removable = []
    · simp only [ddminLoop, if_pos hr]
      exact h
    · simp only [ddminLoop, if_neg hr]
      rcases hfind : firstSuccess T keep removable
          (chunksAux (max 1 (removable.length / n)) removable.length removable) with
        _ | subset
      · by_cases hn : n ≥ removable.length
        · simp only [if_pos hn]
          exact h
        · simp only [if_neg hn]
          exact ih removable (min removable.length (n * 2)) (iters + 1) h
      · exact ih (removable.filter (fun idx => idx ∉ subset)) 2 (iters + 1)
          (firstSuccess_sound T keep removable _ subset hfind)

/-- C8: whenever the kept module initially passes the `same_unit` test,
the module rebuilt from ddmin's final kept-statement set still passes it:
every subset of statements is dropped only after a successful test of the
remaining statements, so the test is an invariant of the loop. -/
theorem c8_minimizer_sound (T : Finset Nat → Bool) (keep : Finset Nat)
    (removable : List Nat) (max_iter : Nat)
    (h : T (keep ∪ removable.toFinset) = true) :
    T (ddmin T keep removable max_iter).1 = true :=
  ddminLoop_sound T keep max_iter removable 2 0 h

/-- A concrete same_unit test for the C8 witness: the rebuilt module
matches iff statement 0 is among the kept statements. -/
def T08 : Finset Nat → Bool := fun s => decide (0 ∈ s)

/-- Witness for C8 with a concrete test predicate (the target statement,
index 0, must survive) over three removable statements. -/
theorem c8_minimizer_sound_witness :
    T08 ({0} ∪ ([1, 2, 3] : List Nat).toFinset) = true ∧
    T08 (ddmin T08 {0} [1, 2, 3] 200).1 = true :=
  ⟨by decide, c8_minimizer_sound T08 {0} [1, 2, 3] 200 (by decide)⟩

/-! ## The recursive constant walk (analyze_xdis.walk, lib.collect_paths;
claim C9)

A heap of code objects models object identity: a code object is an index
into a store, and each code constant in `co_consts` is the index of a
(possibly shared, possibly cyclic) code object — marshal'd artifacts can
in principle contain such reference cycles, which is why the spec demands
a visited set.  The source's walk has NO visited set, so its recursion is
modelled with explicit fuel: `none` means the recursion depth exceeded
the fuel. -/

structure StoreCode where
  name : String
  consts : List (Option Nat)
deriving DecidableEq, Repr

/-- analyze_xdis.walk / lib.collect_paths (both have the same recursive
structure and neither carries a visited set), collecting the dotted path
of every visited code object in document order. -/
def walkPaths (store : List StoreCode) : Nat → Nat → String → Option (List String)
  | 0, _, _ => none
  | fuel + 1, i, path =>
    match store.get? i with
    | none => some [path]
    | some c =>
      (c.consts.filterMap id).foldl
        (fun acc j =>
          match acc, store.get? j with
          | none, _ => none
          | some paths, none => some paths
          | some paths, some cj =>
            match walkPaths store fuel j (path ++ "." ++ cj.name) with
            | none => none
            | some sub => some (paths ++ sub))
        (some [path])

/-- A store with a self-referential code object: its constant tuple
contains the object itself. -/
def cycStore : List StoreCode := [⟨"m", [some 0]⟩]

/-- C9 (code_bug evidence): on the cyclic constant graph the walk exceeds
every recursion depth — there is no visited set to stop it, so for every
fuel the walk fails to complete, i.e. the Python recursion never
terminates (RecursionError), contradicting the claim's guarded walk. -/
theorem c9_walk_diverges :
    ∀ (fuel : Nat) (path : String), walkPaths cycStore fuel 0 path = none := by
  intro fuel
  induction fuel with
  | zero => intro path; rfl
  | succ fuel ih =>
    intro path
    have hstep : walkPaths cycStore (fuel + 1) 0 path =
        match walkPaths cycStore fuel 0 (path ++ "." ++ "m") with
        | none => none
        | some sub => some ([path] ++ sub) := rfl
    rw [hstep, ih]

/-! ## Path lookup (lib.find_code_by_path; claim C10)

A code-object tree: `consts` holds the constant tuple, where `some child`
is a nested code object (hasattr co_code) and `none` any other constant. -/

inductive CodeT where
  | mk (name : String) (consts : List (Option CodeT))

def CodeT.name : CodeT → String
  | .mk n _ => n

def CodeT.consts : CodeT → List (Option CodeT)
  | .mk _ cs => cs

mutual

/-- The inner `walk` of lib.find_code_by_path: collect `(path, obj)` for
every unit whose path equals the target or ends with "." ++ target, in
depth-first document order. -/
def walkMatches (target : String) : CodeT → String → List (String × CodeT)
  | .mk name consts, path =>
    (if path = target ∨ strEnds path ("." ++ target) then
      [(path, CodeT.mk name consts)] else []) ++
    walkMatchesList target consts path

def walkMatchesList (target : String) : List (Option CodeT) → String →
    List (String × CodeT)
  | [], _ => []
  | none :: rest, path => walkMatchesList target rest path
  | some c :: rest, path =>
    walkMatches target c (path ++ "." ++ c.name) ++ walkMatchesList target rest path

end

/-- lib.find_code_by_path (the newest revision, with the duplicate-path
index): returns the selected match (or none) together with the full match
list. -/
def find_code_by_path (code : CodeT) (target : String) (index : Option Int) :
    Option (String × CodeT) × List (String × CodeT) :=
  let ms := walkMatches target code code.name
  if ms.isEmpty then (none, ms)
  else
    match index with
    | some i =>
      if i < 0 ∨ i ≥ (ms.length : Int) then (none, ms)
      else (ms.get? i.toNat, ms)
    | none =>
      if ms.length = 1 then (ms.head?, ms)
      else
        let exact_ms := ms.filter (fun m => m.1 = target)
        if exact_ms.length = 1 then (exact_ms.head?, ms)
        else (none, ms)

/-- The selection rule as claim C10 words it, over the same depth-first
match list: with an index, the index-th match in document order and none
when the index is out of range; with no index, the sole match when
exactly one exists, otherwise the unique match whose full path equals the
target exactly, otherwise none. -/
def find_code_by_path_spec (code : CodeT) (target : String) (index : Option Int) :
    Option (String × CodeT) :=
  let ms := walkMatches target code code.name
  match index with
  | some i =>
    if 0 ≤ i ∧ i < (ms.length : Int) then ms.get? i.toNat else none
  | none =>
    if ms.length = 1 then ms.head?
    else if (ms.filter (fun m => m.1 = target)).length = 1 then
      (ms.filter (fun m => m.1 = target)).head?
    else none

mutual

theorem walkMatches_pred (target : String) (c : CodeT) (path : String) :
    ∀ m ∈ walkMatches target c path,
      m.1 = target ∨ strEnds m.1 ("." ++ target) = true :=
  match c with
  | .mk name consts => by
    intro m hm
    simp only [walkMatches] at hm
    rcases List.mem_append.mp hm with h | h
    · split at h
      · rename_i hcond
        simp only [List.mem_singleton] at h
        subst h
        simpa using hcond
      · simp at h
    · exact walkMatchesList_pred target consts path m h

theorem walkMatchesList_pred (target : String) (l : List (Option CodeT))
    (path : String) :
    ∀ m ∈ walkMatchesList target l path,
      m.1 = target ∨ strEnds m.1 ("." ++ target) = true :=
  match l with
  | [] => by
    intro m hm
    simp [walkMatchesList] at hm
  | none :: rest => by
    intro m hm
    simp only [walkMatchesList] at hm
    exact walkMatchesList_pred target rest path m hm
  | some c :: rest => by
    intro m hm
    simp only [walkMatchesList] at hm
    rcases List.mem_append.mp hm with h | h
    · exact walkMatches_pred target c (path ++ "." ++ c.name) m h
    · exact walkMatchesList_pred target rest path m h

end

/-- C10: find_code_by_path matches a unit exactly when its full dotted
path equals the target or ends with "." ++ target; the second component
is the full depth-first match list; and the selected match follows the
claim's rule — with an index, the index-th match in document order (none
when out of range); with no index, the sole match when exactly one
exists, else the unique exact-path match, else none. -/
theorem c10_find_code_by_path (code : CodeT) (target : String) (index : Option Int) :
    (∀ m ∈ (find_code_by_path code target index).2,
      m.1 = target ∨ strEnds m.1 ("." ++ target) = true) ∧
    (find_code_by_path code target index).2 = walkMatches target code code.name ∧
    (find_code_by_path code target index).1 =
      find_code_by_path_spec code target index := by
  have hsnd : (find_code_by_path code target index).2 =
      walkMatches target code code.name := by
    unfold find_code_by_path
    by_cases hm : (walkMatches target code code.name).isEmpty
    · simp only [if_pos hm]
    · simp only [if_neg hm]
      rcases index with _ | i
      · repeat' split
        all_goals rfl
      · repeat' split
        all_goals rfl
  refine ⟨?_, hsnd, ?_⟩
  · rw [hsnd]
    exact walkMatches_pred target code code.name
  · unfold find_code_by_path find_code_by_path_spec
    by_cases hm : (walkMatches target code code.name).isEmpty
    · have hnil : walkMatches target code code.name = [] := by
        simpa [List.isEmpty_iff] using hm
      rcases index with _ | i
      · simp [hnil]
      · have hx : ¬ (0 ≤ i ∧ i < (([] : List (String × CodeT)).length : Int)) := by
          simp only [List.length_nil]
          omega
        simp [hnil, hx]
    · rcases index with _ | i
      · simp only [if_neg hm]
        repeat' split
        all_goals rfl
      · simp only [if_neg hm]
        by_cases hrange : i < 0 ∨ i ≥ ((walkMatches target code code.name).length : Int)
        · rw [if_pos hrange, if_neg (by omega)]
        · rw [if_neg hrange, if_pos (by omega)]

end Pez
